import Mathlib

/-!
Verification of the data-quality checking engine of `src/DQ/dq_checks.py`
(class `DQ`): value-range checking, cross-table referential consistency,
time-windowed referential consistency, hierarchy re-formatting of the
findings table, and the summary reporter.

Shallow embedding conventions:
* a pandas cell value is `Value` (`na` models NaN / missing, `num` models a
  numeric cell as an exact rational, `str` a string cell);
* a DataFrame row is an association list from column name to `Value`; a
  lookup of a column a row does not carry yields `Value.na`, matching how
  `pd.concat` fills missing columns with NaN;
* a DataFrame is `Table` (column list plus row list);
* `pd.read_csv` and its possible failure is an environment
  `Env : String → Option Table`; `none` models a raised exception, which
  every checker catches per unit of work and turns into a skip;
* the mutable accumulator `self.data_quality_output` is threaded
  explicitly: each checker takes the current findings table and returns
  the updated one, which is also the method's Python return value.
-/

/-- A pandas cell value: NaN, a numeric (modelled as an exact rational;
the source manipulates CSV-loaded numbers), or a string. -/
inductive Value where
  | na : Value
  | num : Rat → Value
  | str : String → Value
deriving DecidableEq

/-- One DataFrame row: an association list column-name ↦ value. -/
abbrev Row := List (String × Value)

/-- Column lookup in a row; a column the row does not carry reads as NaN,
matching pandas' behaviour for frames concatenated from heterogeneous
schemas. -/
def Row.getVal : Row → String → Value
  | [], _ => Value.na
  | p :: rest, c => if p.1 = c then p.2 else Row.getVal rest c

/-- Column assignment on one row (`df[c] = v` at row granularity): any
previous binding for `c` is replaced. -/
def Row.setVal (r : Row) (c : String) (v : Value) : Row :=
  r.filter (fun p => p.1 ≠ c) ++ [(c, v)]

/-- A sequence of column assignments (`df[c1] = v1; df[c2] = v2; ...`). -/
def Row.addMeta (r : Row) (meta : List (String × Value)) : Row :=
  meta.foldl (fun acc p => acc.setVal p.1 p.2) r

/-- A DataFrame: its column list and its rows. -/
structure Table where
  cols : List String
  rows : List Row
deriving DecidableEq

/-- Python `df.empty`: true when either axis has length zero. -/
def Table.isEmptyDF (t : Table) : Bool :=
  t.rows.isEmpty || t.cols.isEmpty

/-- Models `pd.concat([t, new], ignore_index=True)`: rows are appended, the
column set is the union (new columns appended after the existing ones);
rows read NaN in columns they do not carry via `Row.getVal`. -/
def Table.append (t : Table) (newCols : List String) (newRows : List Row) : Table :=
  { cols := t.cols ++ newCols.filter (fun c => c ∉ t.cols),
    rows := t.rows ++ newRows }

/-- The table-loading environment (`pd.read_csv(self.data_path + name + '.csv')`);
`none` models a raised load/parse exception. -/
abbrev Env := String → Option Table

/-- Substring test on character lists (Python's `in` on strings). -/
def hasSub (pat : List Char) : List Char → Bool
  | [] => pat.isEmpty
  | c :: cs => pat.isPrefixOf (c :: cs) || hasSub pat cs

/-- Python `pat in s` for strings. -/
def strContains (s pat : String) : Bool :=
  hasSub pat.data s.data

/-- Python `s.upper()` (column names in this code base are ASCII). The
core `String.toUpper` is avoided only because its looping implementation
does not reduce in the kernel; this is the same function on the data. -/
def upStr (s : String) : String :=
  ⟨s.data.map Char.toUpper⟩

/-- Python `s.endswith(suffix)`. -/
def endsW (s suf : String) : Bool :=
  List.isSuffixOf suf.data s.data

/-- Decimal digits of `n`, least significant first, with enough fuel to
terminate structurally (`fuel = n + 1` always suffices). -/
def natDigitsAux : Nat → Nat → List Char
  | 0, _ => []
  | fuel + 1, n =>
    let d := Nat.digitChar (n % 10)
    if n < 10 then [d] else d :: natDigitsAux fuel (n / 10)

/-- Decimal rendering of a natural number (Python's string formatting of
an integer). -/
def natRepr (n : Nat) : String :=
  ⟨(natDigitsAux (n + 1) n).reverse⟩

/-- Exact rendering of a rational for findings' description texts.  The
source formats sample values with fixed decimals (`:.2f`, `:.1f`); the
description text is not load-bearing for any claim, so the exact rational
is rendered instead of a rounded decimal. -/
def ratRepr (q : Rat) : String :=
  (if q < 0 then "-" else "") ++ natRepr q.num.natAbs ++
    (if q.den = 1 then "" else "/" ++ natRepr q.den)

/-- Projection of a row onto a column list (`df[cols]` at row level). -/
def projKey (cs : List String) (r : Row) : List Value :=
  cs.map (fun c => r.getVal c)

/-- Models `drop_duplicates()`: keep the first occurrence of each element. -/
def dedupKeep {α : Type} [DecidableEq α] (seen : List α) : List α → List α
  | [] => []
  | k :: ks => if k ∈ seen then dedupKeep seen ks else k :: dedupKeep (k :: seen) ks

-- ---------------------------------------------------------------------
-- Value-range checker (`DQ.check_val_range`)
-- ---------------------------------------------------------------------

/-- Is this value a string cell? (pandas raises a `TypeError` when an
object column holding strings is compared against a numeric threshold;
the per-pair handler catches it.) -/
def Value.isStr : Value → Bool
  | Value.str _ => true
  | _ => false

/-- One cell of `table[target_col] < th`: true exactly for a numeric cell
strictly below the threshold; NaN compares false, as in pandas. -/
def valBelow (v : Value) (th : Rat) : Bool :=
  match v with
  | Value.num q => q < th
  | _ => false

/-- The rows of `table` whose `col` value is strictly below `th`
(`bad_rows` before tagging). -/
def vrBad (table : Table) (col : String) (th : Rat) : List Row :=
  table.rows.filter (fun r => valBelow (r.getVal col) th)

/-- The metadata columns `check_val_range` assigns on the violating rows;
`sample` is the value of the first violating row, quoted (approximately)
in every row's description text. -/
def vrMeta (tname col : String) (th : Rat) (sample : Value) : List (String × Value) :=
  [("INPUT_COLUMN", Value.str col),
   ("INPUT_TABLE", Value.str tname),
   ("INPUT_VALUE", Value.num th),
   ("WARNING_TYPE", Value.str "val_range"),
   ("WARNING", Value.str ("Value " ++ col ++ "=" ++
      (match sample with | Value.num q => ratRepr q | Value.str s => s | Value.na => "nan") ++
      " is below threshold " ++ ratRepr th ++ " in " ++ tname))]

/-- The tagged finding rows one (table, column) unit contributes: empty
when no row violates, else every violating row tagged with the metadata
(the sample value in the text comes from the first violating row). -/
def vrRows (table : Table) (tname col : String) (th : Rat) : List Row :=
  match vrBad table col th with
  | [] => []
  | r0 :: _ =>
    (vrBad table col th).map (fun r => r.addMeta (vrMeta tname col th (r0.getVal col)))

/-- The metadata column names `check_val_range` adds. -/
def vrMetaNames : List String :=
  ["INPUT_COLUMN", "INPUT_TABLE", "INPUT_VALUE", "WARNING_TYPE", "WARNING"]

/-- One (table, column) unit of `check_val_range`: load the table (a load
failure is caught and skips the unit), skip when the column is absent,
skip (as a caught `TypeError`) when the column holds string cells, else
append the tagged violating rows when there are any. -/
def checkValRangePair (env : Env) (acc : Table) (tname col : String) (th : Rat) : Table :=
  match env tname with
  | none => acc
  | some table =>
    if col ∈ table.cols then
      if table.rows.any (fun r => (r.getVal col).isStr) then acc
      else
        match vrBad table col th with
        | [] => acc
        | _ :: _ => acc.append (table.cols ++ vrMetaNames) (vrRows table tname col th)
    else acc

/-- Models `DQ.check_val_range`: fold the per-pair unit over the configured
(table, column) pairs; returns the full accumulated findings table. -/
def checkValRange (env : Env) (acc : Table) (pairs : List (String × String)) (th : Rat) : Table :=
  pairs.foldl (fun a p => checkValRangePair env a p.1 p.2 th) acc

-- ---------------------------------------------------------------------
-- Cross-consistency checker (`DQ.check_cross_consistency`)
-- ---------------------------------------------------------------------

/-- Python `'ID' in col.upper()`. -/
def hasIdSub (c : String) : Bool :=
  strContains (upStr c) "ID"

/-- The common ID-like columns of a table pair: columns present in both
whose (uppercased) name contains `ID`.  The source builds this from a
Python set intersection whose iteration order is unspecified; the order
of `t1.cols` is used here, and no claim depends on the order. -/
def crossIds (t1 t2 : Table) : List String :=
  t1.cols.filter (fun c => t2.cols.contains c && hasIdSub c)

/-- The deduplicated reduction of a table to a column list
(`table[cols].drop_duplicates()`), as the list of key tuples in first
occurrence order. -/
def uniqueKeys (t : Table) (cs : List String) : List (List Value) :=
  dedupKeep [] (t.rows.map (projKey cs))

/-- The left-anti-join at key level: keys of the left reduction with no
equal key in the right reduction (`_merge == 'left_only'`). -/
def leftOnly (uk1 uk2 : List (List Value)) : List (List Value) :=
  uk1.filter (fun k => !(uk2.contains k))

/-- The orphaned key tuples of an ordered pair: in `t1`'s reduction on the
common ID columns but absent from `t2`'s. -/
def crossOrphans (t1 t2 : Table) : List (List Value) :=
  leftOnly (uniqueKeys t1 (crossIds t1 t2)) (uniqueKeys t2 (crossIds t1 t2))

/-- The metadata assigned on each orphaned record. -/
def crossMeta (t1n t2n : String) : List (String × Value) :=
  [("INPUT_TABLE", Value.str (t1n ++ " && " ++ t2n)),
   ("WARNING_TYPE", Value.str "cross_consistency"),
   ("WARNING", Value.str ("IDs from " ++ t1n ++ " not found in " ++ t2n))]

/-- One orphaned key tuple as a finding row. -/
def crossRow (cs : List String) (t1n t2n : String) (k : List Value) : Row :=
  Row.addMeta (cs.zip k) (crossMeta t1n t2n)

/-- The metadata column names `check_cross_consistency` adds. -/
def crossMetaNames : List String :=
  ["INPUT_TABLE", "WARNING_TYPE", "WARNING"]

/-- One ordered pair unit of `check_cross_consistency`: load both tables
(a load failure is caught and skips the pair), skip when there is no
common ID column, else append one finding row per orphaned key tuple. -/
def checkCrossPair (env : Env) (acc : Table) (t1n t2n : String) : Table :=
  match env t1n, env t2n with
  | some t1, some t2 =>
    match crossIds t1 t2 with
    | [] => acc
    | _ :: _ =>
      match crossOrphans t1 t2 with
      | [] => acc
      | _ :: _ =>
        acc.append (crossIds t1 t2 ++ crossMetaNames)
          ((crossOrphans t1 t2).map (crossRow (crossIds t1 t2) t1n t2n))
  | _, _ => acc

/-- Helper for `itertools.permutations(l, 2)`: `done` holds the already
visited elements in reverse; each element is paired with every other
element (earlier ones first, preserving the original order). -/
def permPairsAux (done : List String) : List String → List (String × String)
  | [] => []
  | a :: rest =>
    (done.reverse ++ rest).map (fun b => (a, b)) ++ permPairsAux (a :: done) rest

/-- Models `itertools.permutations(tables, 2)`: all ordered pairs of distinct
positions, in the itertools enumeration order. -/
def permPairs (l : List String) : List (String × String) :=
  permPairsAux [] l

/-- Models `DQ.check_cross_consistency`: fold the per-pair unit over all ordered
pairs; returns the full accumulated findings table. -/
def checkCrossConsistency (env : Env) (acc : Table) (tables : List String) : Table :=
  (permPairs tables).foldl (fun a p => checkCrossPair env a p.1 p.2) acc

-- ---------------------------------------------------------------------
-- Temporal-consistency checker (`DQ.check_time_cross_consistency`)
-- ---------------------------------------------------------------------

/-- Entity-identifying column test of the temporal checker: contains `ID`
and `PRODUCT` or `LOCATION` (all case-insensitive). -/
def tcIdCol (c : String) : Bool :=
  strContains (upStr c) "ID" &&
    (strContains (upStr c) "PRODUCT" || strContains (upStr c) "LOCATION")

/-- Columns common to both tables (`set(t1.columns) & set(t2.columns)`;
set iteration order is unspecified in the source, `t1.cols` order is used
here and no claim depends on it). -/
def tcCommon (t1 t2 : Table) : List String :=
  t1.cols.filter (fun c => t2.cols.contains c)

/-- The common entity-identifying columns of the pair. -/
def tcIds (t1 t2 : Table) : List String :=
  (tcCommon t1 t2).filter tcIdCol

/-- The common date columns of the pair (names ending in `_DT`). -/
def tcDates (t1 t2 : Table) : List String :=
  (tcCommon t1 t2).filter (fun c => endsW c "_DT")

/-- The composite key columns: IDs then dates. -/
def tcKeys (t1 t2 : Table) : List String :=
  tcIds t1 t2 ++ tcDates t1 t2

/-- The source's `unique_keys_table1`: table1's deduplicated reduction to the keys. -/
def tcUK1 (t1 t2 : Table) : List (List Value) :=
  uniqueKeys t1 (tcKeys t1 t2)

/-- The source's `unique_keys_table2`. -/
def tcUK2 (t1 t2 : Table) : List (List Value) :=
  uniqueKeys t2 (tcKeys t1 t2)

/-- The source's `missing_records`: key tuples of table1's reduction absent from
table2's. -/
def tcMissing (t1 t2 : Table) : List (List Value) :=
  leftOnly (tcUK1 t1 t2) (tcUK2 t1 t2)

/-- The source's `missing_pct`, as computed in the source inside the nonempty branch:
`missing_count / total_records * 100 if total_records > 0 else 0`. -/
def tcPct (t1 t2 : Table) : Rat :=
  if 0 < (tcUK1 t1 t2).length then
    ((tcMissing t1 t2).length : Rat) / ((tcUK1 t1 t2).length : Rat) * 100
  else 0

/-- One missing (entity, period) combination as a finding row. -/
def tcMissingRow (keyCols : List String) (t1n t2n : String) (th pct : Rat)
    (cnt : Nat) (k : List Value) : Row :=
  Row.addMeta (keyCols.zip k)
    [("INPUT_TABLE", Value.str (t1n ++ " && " ++ t2n)),
     ("INPUT_VALUE", Value.num th),
     ("WARNING_TYPE", Value.str "time_cross_consistency"),
     ("WARNING", Value.str (natRepr cnt ++ " records (" ++ ratRepr pct ++
        "%) from " ++ t1n ++ " missing in " ++ t2n))]

/-- All finding rows of the missing-combination step of one pair. -/
def tcMissingRows (t1 t2 : Table) (t1n t2n : String) (th : Rat) : List Row :=
  (tcMissing t1 t2).map
    (tcMissingRow (tcKeys t1 t2) t1n t2n th (tcPct t1 t2) (tcMissing t1 t2).length)

/-- The metadata column names of the temporal checker's findings. -/
def tcMetaNames : List String :=
  ["INPUT_TABLE", "INPUT_VALUE", "WARNING_TYPE", "WARNING"]

/-- The group keys of `table1.groupby(id_columns)`: deduplicated ID
projections of the rows none of whose ID cells is NaN (pandas' groupby
drops NaN keys). -/
def tcGroups (t1 t2 : Table) : List (List Value) :=
  dedupKeep []
    ((t1.rows.filter (fun r => !((projKey (tcIds t1 t2) r).contains Value.na))).map
      (projKey (tcIds t1 t2)))

/-- The `period_count` of one group: the number of distinct non-NaN values of
the first date column over the rows of that group (`nunique`). -/
def periodCount (rows : List Row) (idCols : List String) (d0 : String)
    (g : List Value) : Nat :=
  (dedupKeep []
    (((rows.filter (fun r => projKey idCols r = g)).map (fun r => r.getVal d0)).filter
      (fun v => v ≠ Value.na))).length

/-- The infrequent group keys: `period_count <= th` (the same `th` as the
percentage gate; pandas sorts groups by key, first-appearance order is
used here and no claim depends on it). -/
def tcInfreq (t1 t2 : Table) (d0 : String) (th : Rat) : List (List Value) :=
  (tcGroups t1 t2).filter
    (fun g => ((periodCount t1.rows (tcIds t1 t2) d0 g : Nat) : Rat) ≤ th)

/-- One infrequent entity as a finding row; `INPUT_TABLE` carries table1's
name only. -/
def tcInfreqRow (idCols : List String) (t1n : String) (th : Rat)
    (g : List Value) : Row :=
  Row.addMeta (idCols.zip g)
    [("INPUT_TABLE", Value.str t1n),
     ("INPUT_VALUE", Value.num th),
     ("WARNING_TYPE", Value.str "time_cross_consistency"),
     ("WARNING", Value.str ("ID appears in " ++ ratRepr th ++
        " or fewer time periods in " ++ t1n))]

/-- All finding rows of the low-frequency step of one pair. -/
def tcInfreqRows (t1 t2 : Table) (d0 : String) (t1n : String) (th : Rat) : List Row :=
  (tcInfreq t1 t2 d0 th).map (tcInfreqRow (tcIds t1 t2) t1n th)

/-- One ordered pair unit of `check_time_cross_consistency`: load both
tables (a load failure is caught and skips the pair); skip when there is
no common entity-ID column or no common date column; step 5 appends the
missing-combination findings only when there are missing records and
`missing_pct > th`; the low-frequency step then appends one finding per
group whose `period_count <= th` (the `len(id_columns) > 0` re-check of
the source is always true on this branch). -/
def checkTimeCrossPair (env : Env) (acc : Table) (t1n t2n : String) (th : Rat) : Table :=
  match env t1n, env t2n with
  | some t1, some t2 =>
    match tcIds t1 t2, tcDates t1 t2 with
    | [], _ => acc
    | _ :: _, [] => acc
    | _ :: _, d0 :: _ =>
      let acc5 :=
        if 0 < (tcMissing t1 t2).length then
          if th < tcPct t1 t2 then
            acc.append (tcKeys t1 t2 ++ tcMetaNames) (tcMissingRows t1 t2 t1n t2n th)
          else acc
        else acc
      if 0 < (tcInfreq t1 t2 d0 th).length then
        acc5.append (tcIds t1 t2 ++ tcMetaNames) (tcInfreqRows t1 t2 d0 t1n th)
      else acc5
  | _, _ => acc

/-- Models `DQ.check_time_cross_consistency`: fold the per-pair unit over the
configured pairs; returns the full accumulated findings table. -/
def checkTimeCrossConsistency (env : Env) (acc : Table)
    (pairs : List (String × String)) (th : Rat) : Table :=
  pairs.foldl (fun a p => checkTimeCrossPair env a p.1 p.2 th) acc

-- ---------------------------------------------------------------------
-- Hierarchy formatter (`DQ.format_output`)
-- ---------------------------------------------------------------------

/-- The name `f'{dim}_ID'`. -/
def idColOf (d : String) : String := d ++ "_ID"

/-- The name `f'{dim}_LVL_ID'` (the hierarchy level column pattern). -/
def lvlPat (d : String) : String := d ++ "_LVL_ID"

/-- The name `f'{dim}_LVL'`. -/
def lvlColOf (d : String) : String := d ++ "_LVL"

/-- The name `f'{dim}_LVL_ID{k}'`. -/
def lvlIdColOf (d : String) (k : Nat) : String := d ++ "_LVL_ID" ++ natRepr k

/-- One cell of `astype('Int64')`: NaN becomes `<NA>` (kept as `na`),
an in-range integral numeric is kept, anything else raises (modelled as
`none`; the exception is caught at dimension granularity). -/
def castInt64 : Value → Option Value
  | Value.na => some Value.na
  | Value.num q =>
    if q.den = 1 ∧ -(2 ^ 63) ≤ q.num ∧ q.num < 2 ^ 63 then some (Value.num q) else none
  | Value.str _ => none

/-- Apply a fallible cell function to every element, failing when any
element fails (the traversal underlying a column-wide `astype`). -/
def optMapList (f : Value → Option Value) : List Value → Option (List Value)
  | [] => some []
  | v :: vs =>
    match f v, optMapList f vs with
    | some w, some ws => some (w :: ws)
    | _, _ => none

/-- Models `df[c].astype('Int64')`: the whole column cast, failing when any cell
fails. -/
def castColumn (rows : List Row) (c : String) : Option (List Value) :=
  optMapList castInt64 (rows.map (fun r => r.getVal c))

/-- Column assignment `df[c] = vals`: values replaced row-wise; the
column is appended to the schema when new, kept in place otherwise. -/
def Table.setCol (t : Table) (c : String) (vals : List Value) : Table :=
  { cols := if c ∈ t.cols then t.cols else t.cols ++ [c],
    rows := (t.rows.zip vals).map (fun p => p.1.setVal c p.2) }

/-- Models `df.drop(c, axis=1)`. -/
def Table.dropCol (t : Table) (c : String) : Table :=
  { cols := t.cols.filter (fun c2 => c2 ≠ c),
    rows := t.rows.map (fun r => r.filter (fun p => p.1 ≠ c)) }

/-- The source's `num_levels + 1`: the count of hierarchy-table columns containing
`{dim}_LVL_ID`, plus one (the level the raw ID column represents). -/
def targetLevel (hier : Table) (d : String) : Nat :=
  (hier.cols.filter (fun c => strContains c (lvlPat d))).length + 1

/-- One dimension unit of `format_output`: skip when `{dim}_ID` is not a
column of the findings table; a hierarchy-table load failure or cast
failure is caught and leaves the findings unchanged; otherwise create
`{dim}_LVL_ID{num_levels+1}` from the cast ID column, set `{dim}_LVL` to
the constant level, and drop `{dim}_ID`. -/
def processDim (env : Env) (t : Table) (d hname : String) : Table :=
  if idColOf d ∈ t.cols then
    match env hname with
    | none => t
    | some hier =>
      match castColumn t.rows (idColOf d) with
      | none => t
      | some vs =>
        ((t.setCol (lvlIdColOf d (targetLevel hier d)) vs).setCol (lvlColOf d)
            (List.replicate t.rows.length (Value.num (targetLevel hier d : Rat)))).dropCol
          (idColOf d)
  else t

/-- Models `DQ.format_output`: a no-op on an empty findings table, else process
each configured dimension in turn (`lvl_data` is a Python dict, modelled
as its association list). -/
def formatOutput (env : Env) (lvl : List (String × String)) (t : Table) : Table :=
  if t.isEmptyDF then t
  else lvl.foldl (fun acc p => processDim env acc p.1 p.2) t

-- ---------------------------------------------------------------------
-- Summary reporter (`DQ.get_summary`)
-- ---------------------------------------------------------------------

/-- The summary record.  The Python dict of the empty case carries
`message` and no `severity`; the non-empty case carries `severity` and no
`message`; the optional fields model exactly that shape difference. -/
structure Summary where
  total_issues : Nat
  by_type : List (Value × Nat)
  by_table : List (Value × Nat)
  message : Option String
  severity : Option String
deriving DecidableEq

/-- Models `value_counts().to_dict()` on one column: each distinct non-NaN value
with its number of occurrences (pandas orders by descending count; the
order is immaterial to every claim and first-appearance order is used). -/
def valueCounts (t : Table) (c : String) : List (Value × Nat) :=
  (dedupKeep [] ((t.rows.map (fun r => r.getVal c)).filter (fun v => v ≠ Value.na))).map
    (fun v => (v, ((t.rows.map (fun r => r.getVal c)).filter (fun v2 => v2 ≠ Value.na)).count v))

/-- The severity classification of the non-empty summary: the dict is
initialised to `'LOW'` and then overwritten by the breakpoint cascade,
which nets to this conditional. -/
def sevOf (total : Nat) : String :=
  if total > 1000 then "CRITICAL"
  else if total > 100 then "HIGH"
  else if total > 10 then "MEDIUM"
  else "LOW"

/-- A numeric rank for the severity labels, used only to state that the
classification is a non-decreasing step function of the count. -/
def sevRank (s : String) : Nat :=
  if s = "LOW" then 0 else if s = "MEDIUM" then 1 else if s = "HIGH" then 2 else 3

/-- Models `DQ.get_summary`: a pure read of the findings table. -/
def getSummary (t : Table) : Summary :=
  if t.isEmptyDF then
    { total_issues := 0, by_type := [], by_table := [],
      message := some "No data quality issues found – pobeda!", severity := none }
  else
    { total_issues := t.rows.length,
      by_type := if "WARNING_TYPE" ∈ t.cols then valueCounts t "WARNING_TYPE" else [],
      by_table := if "INPUT_TABLE" ∈ t.cols then valueCounts t "INPUT_TABLE" else [],
      message := none,
      severity := some (sevOf t.rows.length) }

-- sanity checks (temporary)
-- ---------------------------------------------------------------------
-- Concrete instances (used by the witness theorems)
-- ---------------------------------------------------------------------

/-- A concrete `PRICES` table with one value below, one at, and one above
the threshold 0. -/
def wPrices : Table :=
  { cols := ["PRODUCT_ID", "PRICE"],
    rows := [[("PRODUCT_ID", Value.num 1), ("PRICE", Value.num (-5))],
             [("PRODUCT_ID", Value.num 2), ("PRICE", Value.num 0)],
             [("PRODUCT_ID", Value.num 3), ("PRICE", Value.num 10)]] }

/-- A concrete `SALES` table referencing products 1 and 2. -/
def wSales : Table :=
  { cols := ["PRODUCT_ID", "QTY"],
    rows := [[("PRODUCT_ID", Value.num 1), ("QTY", Value.num 3)],
             [("PRODUCT_ID", Value.num 2), ("QTY", Value.num 4)]] }

/-- A concrete `PRODUCTS` table declaring only product 1. -/
def wProducts : Table :=
  { cols := ["PRODUCT_ID"],
    rows := [[("PRODUCT_ID", Value.num 1)]] }

/-- A concrete transactions table with two (product, date) combinations. -/
def wT1 : Table :=
  { cols := ["PRODUCT_ID", "SALE_DT", "AMT"],
    rows := [[("PRODUCT_ID", Value.num 1), ("SALE_DT", Value.str "2024-01-01"), ("AMT", Value.num 7)],
             [("PRODUCT_ID", Value.num 2), ("SALE_DT", Value.str "2024-01-01"), ("AMT", Value.num 8)]] }

/-- A concrete paired table carrying only the first combination. -/
def wT2 : Table :=
  { cols := ["PRODUCT_ID", "SALE_DT"],
    rows := [[("PRODUCT_ID", Value.num 1), ("SALE_DT", Value.str "2024-01-01")]] }

/-- Tables for the composite-key instance: `A` holds (1, "x"); `B` misses
that tuple but holds each of its component values in some tuple. -/
def wA : Table :=
  { cols := ["PRODUCT_ID", "BATCH_ID"],
    rows := [[("PRODUCT_ID", Value.num 1), ("BATCH_ID", Value.str "x")]] }

/-- See `wA`. -/
def wB : Table :=
  { cols := ["PRODUCT_ID", "BATCH_ID"],
    rows := [[("PRODUCT_ID", Value.num 1), ("BATCH_ID", Value.str "y")],
             [("PRODUCT_ID", Value.num 2), ("BATCH_ID", Value.str "x")]] }

/-- The loading environment of the concrete instances. -/
def wEnv : Env := fun n =>
  if n = "PRICES" then some wPrices
  else if n = "SALES" then some wSales
  else if n = "PRODUCTS" then some wProducts
  else if n = "T1" then some wT1
  else if n = "T2" then some wT2
  else if n = "A" then some wA
  else if n = "B" then some wB
  else none

/-- The empty findings accumulator a `check()` run starts from. -/
def wEmptyT : Table := { cols := [], rows := [] }

/-- A one-row findings table (for the summary instances). -/
def wOneRow : Table :=
  { cols := ["WARNING_TYPE"],
    rows := [[("WARNING_TYPE", Value.str "val_range")]] }

-- ---------------------------------------------------------------------
-- Basic lemmas about rows, projections and deduplication
-- ---------------------------------------------------------------------

theorem getVal_cons (p : String × Value) (rest : Row) (c : String) :
    Row.getVal (p :: rest) c = if p.1 = c then p.2 else Row.getVal rest c := rfl

theorem getVal_append_skip (r1 r2 : Row) (c : String) (h : ∀ p ∈ r1, p.1 ≠ c) :
    Row.getVal (r1 ++ r2) c = Row.getVal r2 c := by
  induction r1 with
  | nil => rfl
  | cons p rest ih =>
    have hp : p.1 ≠ c := h p (by simp)
    rw [List.cons_append, getVal_cons, if_neg hp]
    exact ih (fun q hq => h q (by simp [hq]))

theorem getVal_append_single (r : Row) (c c2 : String) (v : Value) (h : c ≠ c2) :
    Row.getVal (r ++ [(c, v)]) c2 = Row.getVal r c2 := by
  induction r with
  | nil => simp [Row.getVal, h]
  | cons p rest ih =>
    rw [List.cons_append, getVal_cons, getVal_cons, ih]

theorem getVal_filterNe_append (r tail : Row) (c c2 : String) (h : c2 ≠ c) :
    Row.getVal (r.filter (fun p => p.1 ≠ c) ++ tail) c2 = Row.getVal (r ++ tail) c2 := by
  induction r with
  | nil => rfl
  | cons p rest ih =>
    by_cases hpc : p.1 = c
    · have hp2 : ¬ p.1 = c2 := by rw [hpc]; exact fun hc => h hc.symm
      rw [List.filter_cons, if_neg (by simp [hpc]), List.cons_append, getVal_cons,
        if_neg hp2]
      exact ih
    · rw [List.filter_cons, if_pos (by simp [hpc]), List.cons_append, List.cons_append,
        getVal_cons, getVal_cons]
      by_cases hp2 : p.1 = c2
      · rw [if_pos hp2, if_pos hp2]
      · rw [if_neg hp2, if_neg hp2, ih]

theorem getVal_setVal (r : Row) (c c2 : String) (v : Value) :
    Row.getVal (r.setVal c v) c2 = if c2 = c then v else Row.getVal r c2 := by
  rw [Row.setVal]
  by_cases h : c2 = c
  · rw [if_pos h, h]
    rw [getVal_append_skip _ _ _ (fun p hp => by
      have hthis := (List.mem_filter.mp hp).2
      simp only [decide_eq_true_eq] at hthis
      exact hthis)]
    simp [Row.getVal]
  · rw [if_neg h, getVal_filterNe_append r [(c, v)] c c2 h,
      getVal_append_single r c c2 v (fun hc => h hc.symm)]

theorem getVal_filterNe (r : Row) (c c2 : String) :
    Row.getVal (r.filter (fun p => p.1 ≠ c)) c2 = if c2 = c then Value.na else Row.getVal r c2 := by
  by_cases h : c2 = c
  · rw [if_pos h]
    have : ∀ p ∈ r.filter (fun p => p.1 ≠ c), p.1 ≠ c2 := by
      intro p hp
      have := (List.mem_filter.mp hp).2
      simp only [decide_eq_true_eq] at this
      exact h ▸ this
    have h2 := getVal_append_skip (r.filter (fun p => p.1 ≠ c)) [] c2 this
    simpa using h2
  · rw [if_neg h]
    have h2 := getVal_filterNe_append r [] c c2 h
    simpa using h2

theorem filterNe_eq_self (r : Row) (c : String) (h : ∀ p ∈ r, p.1 ≠ c) :
    r.filter (fun p => p.1 ≠ c) = r := by
  induction r with
  | nil => rfl
  | cons p rest ih =>
    have hp := h p (by simp)
    rw [List.filter_cons, if_pos (by simp [hp]), ih (fun q hq => h q (by simp [hq]))]

theorem setVal_fresh (r : Row) (c : String) (v : Value) (h : ∀ p ∈ r, p.1 ≠ c) :
    r.setVal c v = r ++ [(c, v)] := by
  rw [Row.setVal, filterNe_eq_self r c h]

theorem addMeta_fresh (meta : List (String × Value)) (r : Row)
    (hfresh : ∀ q ∈ meta, ∀ p ∈ r, p.1 ≠ q.1)
    (hnd : meta.Pairwise (fun a b => a.1 ≠ b.1)) :
    r.addMeta meta = r ++ meta := by
  induction meta generalizing r with
  | nil => simp [Row.addMeta]
  | cons q rest ih =>
    have h1 : r.setVal q.1 q.2 = r ++ [q] := by
      rw [setVal_fresh r q.1 q.2 (hfresh q (by simp))]
    have hnd2 := (List.pairwise_cons.mp hnd)
    have step : Row.addMeta (r ++ [q]) rest = (r ++ [q]) ++ rest := by
      apply ih
      · intro q2 hq2 p hp
        rcases List.mem_append.mp hp with hp1 | hp2
        · exact hfresh q2 (by simp [hq2]) p hp1
        · have : p = q := by simpa using hp2
          rw [this]
          exact hnd2.1 q2 hq2
      · exact hnd2.2
    calc Row.addMeta r (q :: rest) = Row.addMeta (r.setVal q.1 q.2) rest := rfl
      _ = Row.addMeta (r ++ [q]) rest := by rw [h1]
      _ = (r ++ [q]) ++ rest := step
      _ = r ++ (q :: rest) := by simp

theorem mem_dedupKeep {α : Type} [DecidableEq α] (a : α) :
    ∀ (l seen : List α), a ∈ dedupKeep seen l ↔ a ∈ l ∧ a ∉ seen := by
  intro l
  induction l with
  | nil => intro seen; simp [dedupKeep]
  | cons k ks ih =>
    intro seen
    by_cases hk : k ∈ seen
    · rw [dedupKeep, if_pos hk, ih]
      constructor
      · rintro ⟨h1, h2⟩; exact ⟨by simp [h1], h2⟩
      · rintro ⟨h1, h2⟩
        rcases List.mem_cons.mp h1 with h | h
        · exact absurd (h ▸ hk) h2
        · exact ⟨h, h2⟩
    · rw [dedupKeep, if_neg hk]
      constructor
      · intro h
        rcases List.mem_cons.mp h with h | h
        · exact ⟨by simp [h], h ▸ hk⟩
        · have := (ih (k :: seen)).mp h
          exact ⟨by simp [this.1], fun hc => this.2 (by simp [hc])⟩
      · rintro ⟨h1, h2⟩
        rcases List.mem_cons.mp h1 with h | h
        · simp [h]
        · by_cases hak : a = k
          · simp [hak]
          · have : a ∈ dedupKeep (k :: seen) ks :=
              (ih (k :: seen)).mpr ⟨h, by simp [hak, h2]⟩
            simp [this]

theorem projKey_length (cs : List String) (r : Row) : (projKey cs r).length = cs.length := by
  simp [projKey]

theorem mem_uniqueKeys (t : Table) (cs : List String) (k : List Value) :
    k ∈ uniqueKeys t cs ↔ ∃ r ∈ t.rows, projKey cs r = k := by
  rw [uniqueKeys, mem_dedupKeep]
  simp

theorem mem_uniqueKeys_length (t : Table) (cs : List String) (k : List Value)
    (h : k ∈ uniqueKeys t cs) : k.length = cs.length := by
  rcases (mem_uniqueKeys t cs k).mp h with ⟨r, _, hr⟩
  rw [← hr, projKey_length]

theorem mem_leftOnly (uk1 uk2 : List (List Value)) (k : List Value) :
    k ∈ leftOnly uk1 uk2 ↔ k ∈ uk1 ∧ k ∉ uk2 := by
  simp [leftOnly]

theorem map_snd_zip_eq {α β : Type} (l1 : List α) (l2 : List β)
    (h : l1.length = l2.length) : (l1.zip l2).map Prod.snd = l2 := by
  induction l1 generalizing l2 with
  | nil => cases l2 with
    | nil => rfl
    | cons b bs => simp at h
  | cons a as ih =>
    cases l2 with
    | nil => simp at h
    | cons b bs =>
      simp only [List.zip_cons_cons, List.map_cons]
      rw [ih bs (by simpa using h)]

theorem fst_mem_of_mem_zip {α β : Type} {l1 : List α} {l2 : List β} {p : α × β}
    (h : p ∈ l1.zip l2) : p.1 ∈ l1 :=
  (List.of_mem_zip h).1
-- ---------------------------------------------------------------------
-- C7 / C9: the summary reporter
-- ---------------------------------------------------------------------

/-- C7: `get_summary` classifies severity from the total finding count by
the fixed breakpoints — CRITICAL iff total > 1000, HIGH iff
100 < total ≤ 1000, MEDIUM iff 10 < total ≤ 100, LOW iff total ≤ 10 (for
a non-empty findings table) — and the classification is a non-decreasing
step function of the total count. -/
theorem getSummary_severity_breakpoints (t : Table) (ht : t.isEmptyDF = false) :
    (getSummary t).severity = some (sevOf t.rows.length) ∧
    (∀ n : Nat,
      (sevOf n = "CRITICAL" ↔ 1000 < n) ∧
      (sevOf n = "HIGH" ↔ 100 < n ∧ n ≤ 1000) ∧
      (sevOf n = "MEDIUM" ↔ 10 < n ∧ n ≤ 100) ∧
      (sevOf n = "LOW" ↔ n ≤ 10)) ∧
    (∀ m n : Nat, m ≤ n → sevRank (sevOf m) ≤ sevRank (sevOf n)) := by
  refine ⟨?_, ?_, ?_⟩
  · rw [getSummary, if_neg (by simp [ht])]
  · intro n
    unfold sevOf
    refine ⟨?_, ?_, ?_, ?_⟩ <;> split_ifs with h1 h2 h3 <;>
      simp_all <;> omega
  · intro m n hmn
    unfold sevOf
    split_ifs <;> first | decide | omega

/-- C7 witness: a concrete one-row findings table is non-empty and its
summary severity is LOW. -/
theorem getSummary_severity_breakpoints_witness :
    wOneRow.isEmptyDF = false ∧ (getSummary wOneRow).severity = some "LOW" := by
  refine ⟨by decide, ?_⟩
  have h := getSummary_severity_breakpoints wOneRow (by decide)
  rw [h.1]
  decide

/-- C9: on an empty findings table `get_summary` returns the distinct
zero-issue record — total 0, empty groupings, a success message and no
severity field — while every non-empty table's summary has a severity
and no message; the reporter is a pure read (it is a function of the
findings table and returns only the summary record). -/
theorem getSummary_empty_shape (t : Table) (ht : t.isEmptyDF = true) :
    getSummary t =
      { total_issues := 0, by_type := [], by_table := [],
        message := some "No data quality issues found – pobeda!", severity := none } ∧
    (∀ u : Table, u.isEmptyDF = false →
      (getSummary u).severity = some (sevOf u.rows.length) ∧ (getSummary u).message = none) := by
  constructor
  · rw [getSummary, if_pos ht]
  · intro u hu
    rw [getSummary, if_neg (by simp [hu])]
    exact ⟨rfl, rfl⟩

/-- C9 witness: the empty accumulator's summary, concretely. -/
theorem getSummary_empty_shape_witness :
    wEmptyT.isEmptyDF = true ∧
    getSummary wEmptyT =
      { total_issues := 0, by_type := [], by_table := [],
        message := some "No data quality issues found – pobeda!", severity := none } :=
  ⟨by decide, (getSummary_empty_shape wEmptyT (by decide)).1⟩

-- ---------------------------------------------------------------------
-- C5: value-range strict threshold
-- ---------------------------------------------------------------------

/-- C5: for a (table, column) unit whose column exists (and holds no
string cells, which in pandas would raise and skip the whole unit), the
rows appended are exactly the tagged violating rows; a table row is a
violating row iff its column value is a numeric strictly below `th`; in
particular a row whose value equals `th` is never among them, and every
row with a value below `th` is. -/
theorem checkValRange_strict_threshold
    (env : Env) (acc : Table) (tname col : String) (th : Rat) (table : Table)
    (hload : env tname = some table) (hcol : col ∈ table.cols)
    (hnum : ∀ r ∈ table.rows, (Row.getVal r col).isStr = false) :
    (checkValRangePair env acc tname col th).rows
      = acc.rows ++ vrRows table tname col th ∧
    (∀ r ∈ table.rows,
      r ∈ vrBad table col th ↔ ∃ q : Rat, Row.getVal r col = Value.num q ∧ q < th) ∧
    (∀ r ∈ vrBad table col th, Row.getVal r col ≠ Value.num th) ∧
    (vrRows table tname col th).length = (vrBad table col th).length := by
  have memBad : ∀ r, r ∈ vrBad table col th ↔
      r ∈ table.rows ∧ valBelow (Row.getVal r col) th = true := by
    intro r
    simp [vrBad, List.mem_filter]
  have belowIff : ∀ r, valBelow (Row.getVal r col) th = true ↔
      ∃ q : Rat, Row.getVal r col = Value.num q ∧ q < th := by
    intro r
    cases hv : Row.getVal r col with
    | na => simp [valBelow]
    | num q =>
      simp only [valBelow]
      constructor
      · intro h
        exact ⟨q, rfl, by simpa using h⟩
      · rintro ⟨q2, hq2, hlt⟩
        have : q2 = q := by
          have := hq2
          simp at this
          exact this.symm
        simp [this ▸ hlt]
    | str s => simp [valBelow]
  refine ⟨?_, ?_, ?_, ?_⟩
  · rw [checkValRangePair, hload]
    simp only
    rw [if_pos hcol]
    have hany : (table.rows.any fun r => (Row.getVal r col).isStr) = false := by
      rw [List.any_eq_false]
      intro r hr
      simp [hnum r hr]
    rw [if_neg (by simp [hany])]
    cases hb : vrBad table col th with
    | nil =>
      rw [vrRows, hb]
      simp
    | cons r0 rest => rw [Table.append]
  · intro r hr
    rw [memBad r, belowIff r]
    constructor
    · exact fun h => h.2
    · exact fun h => ⟨hr, h⟩
  · intro r hr
    have h2 := ((memBad r).mp hr).2
    rcases (belowIff r).mp h2 with ⟨q, hq, hlt⟩
    rw [hq]
    intro hc
    have : q = th := by simpa using hc
    rw [this] at hlt
    exact absurd hlt (lt_irrefl th)
  · rw [vrRows]
    cases hb : vrBad table col th with
    | nil => simp [hb]
    | cons r0 rest => simp [hb]

/-- C5 witness: on the concrete `PRICES` table with threshold 0, exactly
the row with value −5 violates; the row at exactly 0 does not. -/
theorem checkValRange_strict_threshold_witness :
    wEnv "PRICES" = some wPrices ∧ "PRICE" ∈ wPrices.cols ∧
    (checkValRangePair wEnv wEmptyT "PRICES" "PRICE" 0).rows
      = wEmptyT.rows ++ vrRows wPrices "PRICES" "PRICE" 0 ∧
    vrBad wPrices "PRICE" 0 = [wPrices.rows.head!] := by
  have h := checkValRange_strict_threshold wEnv wEmptyT "PRICES" "PRICE" 0 wPrices
    rfl (by decide) (by decide)
  exact ⟨rfl, by decide, h.1, by decide⟩

-- ---------------------------------------------------------------------
-- C3 / C4: cross-consistency
-- ---------------------------------------------------------------------

theorem mem_permPairsAux (x y : String) :
    ∀ (rest done : List String), (done.reverse ++ rest).Nodup →
      ((x, y) ∈ permPairsAux done rest ↔
        x ∈ rest ∧ y ∈ done.reverse ++ rest ∧ x ≠ y) := by
  intro rest
  induction rest with
  | nil => intro done _; simp [permPairsAux]
  | cons a rest2 ih =>
    intro done hnd
    have hshape : (a :: done).reverse ++ rest2 = done.reverse ++ a :: rest2 := by
      rw [List.reverse_cons, List.append_assoc]
      rfl
    have hnd2 : ((a :: done).reverse ++ rest2).Nodup := by
      rw [hshape]
      exact hnd
    have hmemA : a ∉ done.reverse ∧ a ∉ rest2 := by
      rcases List.nodup_append.mp hnd with ⟨hd, hr, hdis⟩
      refine ⟨fun hc => hdis hc (by simp), (List.nodup_cons.mp hr).1⟩
    rw [permPairsAux]
    constructor
    · intro h
      rcases List.mem_append.mp h with h | h
      · rcases List.mem_map.mp h with ⟨b, hb, hxy⟩
        have hax : a = x := congrArg Prod.fst hxy
        have hby : b = y := congrArg Prod.snd hxy
        subst hax
        subst hby
        refine ⟨by simp, ?_, ?_⟩
        · rcases List.mem_append.mp hb with h2 | h2
          · exact List.mem_append.mpr (Or.inl h2)
          · exact List.mem_append.mpr (Or.inr (by simp [h2]))
        · intro hc
          rw [← hc] at hb
          rcases List.mem_append.mp hb with h2 | h2
          · exact hmemA.1 h2
          · exact hmemA.2 h2
      · have h2 := (ih (a :: done) hnd2).mp h
        rw [hshape] at h2
        exact ⟨by simp [h2.1], h2.2.1, h2.2.2⟩
    · rintro ⟨hx, hy, hxy⟩
      rcases List.mem_cons.mp hx with hx | hx
      · subst hx
        apply List.mem_append.mpr
        left
        apply List.mem_map.mpr
        refine ⟨y, ?_, rfl⟩
        rcases List.mem_append.mp hy with h2 | h2
        · exact List.mem_append.mpr (Or.inl h2)
        · rcases List.mem_cons.mp h2 with h3 | h3
          · exact absurd h3.symm hxy
          · exact List.mem_append.mpr (Or.inr h3)
      · apply List.mem_append.mpr
        right
        apply (ih (a :: done) hnd2).mpr
        rw [hshape]
        exact ⟨hx, hy, hxy⟩

theorem mem_permPairs (l : List String) (hnd : l.Nodup) (x y : String) :
    (x, y) ∈ permPairs l ↔ x ∈ l ∧ y ∈ l ∧ x ≠ y := by
  have h := mem_permPairsAux x y l [] (by simpa using hnd)
  simpa [permPairs] using h

theorem crossIds_hasId (t1 t2 : Table) (c : String) (hc : c ∈ crossIds t1 t2) :
    hasIdSub c = true := by
  have h2 := (List.mem_filter.mp hc).2
  simp only [Bool.and_eq_true] at h2
  exact h2.2

theorem crossPair_rows (env : Env) (acc : Table) (t1n t2n : String) (t1 t2 : Table)
    (h1 : env t1n = some t1) (h2 : env t2n = some t2) (hc : crossIds t1 t2 ≠ []) :
    (checkCrossPair env acc t1n t2n).rows
      = acc.rows ++ (crossOrphans t1 t2).map (crossRow (crossIds t1 t2) t1n t2n) := by
  rcases List.exists_cons_of_ne_nil hc with ⟨c0, cs, hcs⟩
  rw [checkCrossPair, h1, h2]
  simp only [hcs]
  cases ho : crossOrphans t1 t2 with
  | nil => simp [ho]
  | cons k ks => simp [ho, Table.append]

theorem crossRow_inj (cs : List String) (t1n t2n : String) (k k2 : List Value)
    (hIds : ∀ c ∈ cs, hasIdSub c = true)
    (hk : k.length = cs.length) (hk2 : k2.length = cs.length)
    (heq : crossRow cs t1n t2n k = crossRow cs t1n t2n k2) : k = k2 := by
  have hfresh : ∀ (kk : List Value), ∀ q ∈ crossMeta t1n t2n, ∀ p ∈ cs.zip kk, p.1 ≠ q.1 := by
    intro kk q hq p hp
    have hid := hIds p.1 (fst_mem_of_mem_zip hp)
    simp only [crossMeta, List.mem_cons, List.not_mem_nil, or_false] at hq
    intro hcq
    rw [hcq] at hid
    rcases hq with h | h | h
    · rw [h] at hid
      have hid2 : hasIdSub "INPUT_TABLE" = true := hid
      exact absurd hid2 (by decide)
    · rw [h] at hid
      have hid2 : hasIdSub "WARNING_TYPE" = true := hid
      exact absurd hid2 (by decide)
    · rw [h] at hid
      have hid2 : hasIdSub "WARNING" = true := hid
      exact absurd hid2 (by decide)
  have hnd : (crossMeta t1n t2n).Pairwise (fun a b => a.1 ≠ b.1) := by
    have d1 : ("INPUT_TABLE" : String) ≠ "WARNING_TYPE" := by decide
    have d2 : ("INPUT_TABLE" : String) ≠ "WARNING" := by decide
    have d3 : ("WARNING_TYPE" : String) ≠ "WARNING" := by decide
    rw [crossMeta]
    refine List.Pairwise.cons ?_ (List.Pairwise.cons ?_ (List.Pairwise.cons ?_ List.Pairwise.nil))
    · intro b hb
      simp only [List.mem_cons, List.not_mem_nil, or_false] at hb
      rcases hb with h | h
      · rw [h]; exact d1
      · rw [h]; exact d2
    · intro b hb
      simp only [List.mem_cons, List.not_mem_nil, or_false] at hb
      rw [hb]
      exact d3
    · intro b hb
      exact absurd hb (by simp)
  rw [crossRow, crossRow, addMeta_fresh _ _ (hfresh k) hnd, addMeta_fresh _ _ (hfresh k2) hnd] at heq
  have hlen : (cs.zip k).length = (cs.zip k2).length := by
    rw [List.length_zip, List.length_zip, hk, hk2]
  have hz := (List.append_inj heq hlen).1
  calc k = (cs.zip k).map Prod.snd := (map_snd_zip_eq cs k hk.symm).symm
    _ = (cs.zip k2).map Prod.snd := by rw [hz]
    _ = k2 := map_snd_zip_eq cs k2 hk2.symm

/-- C3: over a duplicate-free table list, the cross-consistency pair list
contains exactly the ordered pairs (A, B) with A ≠ B; for any pair with a
non-empty common ID-column set, the appended findings are exactly the
key tuples of table A's deduplicated reduction absent from table B's
reduction; and a key tuple present in both reductions never yields a
finding of that pair (instantiating A and B both ways covers both
directions). -/
theorem checkCrossConsistency_pairs_and_orphans (tables : List String) (hnd : tables.Nodup) :
    (∀ A B : String, (A, B) ∈ permPairs tables ↔ A ∈ tables ∧ B ∈ tables ∧ A ≠ B) ∧
    (∀ (env : Env) (acc : Table) (A B : String) (t1 t2 : Table),
      env A = some t1 → env B = some t2 → crossIds t1 t2 ≠ [] →
      ((checkCrossPair env acc A B).rows
        = acc.rows ++ (crossOrphans t1 t2).map (crossRow (crossIds t1 t2) A B)) ∧
      (∀ k, k ∈ crossOrphans t1 t2 ↔
        k ∈ uniqueKeys t1 (crossIds t1 t2) ∧ k ∉ uniqueKeys t2 (crossIds t1 t2)) ∧
      (∀ k, k ∈ uniqueKeys t1 (crossIds t1 t2) → k ∈ uniqueKeys t2 (crossIds t1 t2) →
        crossRow (crossIds t1 t2) A B k ∉
          (crossOrphans t1 t2).map (crossRow (crossIds t1 t2) A B))) := by
  constructor
  · exact fun A B => mem_permPairs tables hnd A B
  · intro env acc A B t1 t2 h1 h2 hc
    have hmem : ∀ k, k ∈ crossOrphans t1 t2 ↔
        k ∈ uniqueKeys t1 (crossIds t1 t2) ∧ k ∉ uniqueKeys t2 (crossIds t1 t2) := by
      intro k
      rw [crossOrphans, mem_leftOnly]
    refine ⟨crossPair_rows env acc A B t1 t2 h1 h2 hc, hmem, ?_⟩
    intro k hk1 hk2 hcontra
    rcases List.mem_map.mp hcontra with ⟨k2, hk2mem, hkeq⟩
    have hk2uk1 : k2 ∈ uniqueKeys t1 (crossIds t1 t2) := ((hmem k2).mp hk2mem).1
    have hkk : k2 = k := crossRow_inj (crossIds t1 t2) A B k2 k
      (crossIds_hasId t1 t2)
      (mem_uniqueKeys_length t1 _ k2 hk2uk1)
      (mem_uniqueKeys_length t1 _ k hk1)
      hkeq
    rw [hkk] at hk2mem
    exact ((hmem k).mp hk2mem).2 hk2

/-- C3 witness: the concrete SALES/PRODUCTS instance. -/
theorem checkCrossConsistency_pairs_and_orphans_witness :
    (["SALES", "PRODUCTS"] : List String).Nodup ∧
    (checkCrossPair wEnv wEmptyT "SALES" "PRODUCTS").rows
      = wEmptyT.rows ++ (crossOrphans wSales wProducts).map
          (crossRow (crossIds wSales wProducts) "SALES" "PRODUCTS") := by
  refine ⟨by decide, ?_⟩
  have h := checkCrossConsistency_pairs_and_orphans ["SALES", "PRODUCTS"] (by decide)
  exact (h.2 wEnv wEmptyT "SALES" "PRODUCTS" wSales wProducts rfl rfl (by decide)).1

/-- C4: the anti-join is on the composite key as a whole: a key tuple of
table A's reduction with no equal tuple in table B's reduction is flagged
even when each of its component values occurs somewhere in B's reduction
(partial-key matches do not suppress the finding). -/
theorem checkCross_composite_key
    (env : Env) (acc : Table) (A B : String) (t1 t2 : Table)
    (h1 : env A = some t1) (h2 : env B = some t2) (hc : crossIds t1 t2 ≠ [])
    (k : List Value) (hk1 : k ∈ uniqueKeys t1 (crossIds t1 t2))
    (hk2 : k ∉ uniqueKeys t2 (crossIds t1 t2))
    (hpart : ∀ v ∈ k, ∃ k2 ∈ uniqueKeys t2 (crossIds t1 t2), v ∈ k2) :
    crossRow (crossIds t1 t2) A B k ∈ (checkCrossPair env acc A B).rows := by
  rw [crossPair_rows env acc A B t1 t2 h1 h2 hc]
  apply List.mem_append.mpr
  right
  apply List.mem_map.mpr
  refine ⟨k, ?_, rfl⟩
  rw [crossOrphans, mem_leftOnly]
  exact ⟨hk1, hk2⟩

/-- C4 witness: `A` holds (1, "x"), absent as a tuple from `B`, although
`B` holds both component values in other tuples; the tuple is flagged. -/
theorem checkCross_composite_key_witness :
    (∀ v ∈ ([Value.num 1, Value.str "x"] : List Value),
      ∃ k2 ∈ uniqueKeys wB (crossIds wA wB), v ∈ k2) ∧
    crossRow (crossIds wA wB) "A" "B" [Value.num 1, Value.str "x"]
      ∈ (checkCrossPair wEnv wEmptyT "A" "B").rows := by
  refine ⟨by decide, ?_⟩
  exact checkCross_composite_key wEnv wEmptyT "A" "B" wA wB rfl rfl (by decide)
    [Value.num 1, Value.str "x"] (by decide) (by decide) (by decide)

-- ---------------------------------------------------------------------
-- C1 / C2: temporal consistency
-- ---------------------------------------------------------------------

theorem zipMeta_inj (cs : List String) (meta : List (String × Value))
    (hfresh : ∀ q ∈ meta, ∀ c ∈ cs, c ≠ q.1)
    (hnd : meta.Pairwise (fun a b => a.1 ≠ b.1))
    (k k2 : List Value) (hk : k.length = cs.length) (hk2 : k2.length = cs.length)
    (heq : Row.addMeta (cs.zip k) meta = Row.addMeta (cs.zip k2) meta) : k = k2 := by
  have hf : ∀ (kk : List Value), ∀ q ∈ meta, ∀ p ∈ cs.zip kk, p.1 ≠ q.1 := by
    intro kk q hq p hp
    exact hfresh q hq p.1 (fst_mem_of_mem_zip hp)
  rw [addMeta_fresh _ _ (hf k) hnd, addMeta_fresh _ _ (hf k2) hnd] at heq
  have hlen : (cs.zip k).length = (cs.zip k2).length := by
    rw [List.length_zip, List.length_zip, hk, hk2]
  have hz := (List.append_inj heq hlen).1
  calc k = (cs.zip k).map Prod.snd := (map_snd_zip_eq cs k hk.symm).symm
    _ = (cs.zip k2).map Prod.snd := by rw [hz]
    _ = k2 := map_snd_zip_eq cs k2 hk2.symm

theorem tcIds_tcIdCol (t1 t2 : Table) (c : String) (hc : c ∈ tcIds t1 t2) :
    tcIdCol c = true :=
  (List.mem_filter.mp hc).2

theorem mem_tcGroups_length (t1 t2 : Table) (g : List Value) (hg : g ∈ tcGroups t1 t2) :
    g.length = (tcIds t1 t2).length := by
  rw [tcGroups, mem_dedupKeep] at hg
  rcases List.mem_map.mp hg.1 with ⟨r, _, hr⟩
  rw [← hr, projKey_length]

theorem tcUK1_ne_nil (t1 t2 : Table) (h : 0 < (tcMissing t1 t2).length) :
    ¬ (tcUK1 t1 t2).length = 0 := by
  intro h0
  have huk : tcUK1 t1 t2 = [] := List.length_eq_zero.mp h0
  rw [tcMissing, leftOnly, huk] at h
  simp at h

/-- The rows of one temporal-consistency pair unit, as the source
computes them: the step-5 block is appended exactly when there are
missing records and `missing_pct > th`; the low-frequency block follows
unconditionally (it is empty when no group is infrequent). -/
theorem tcPair_rows (env : Env) (acc : Table) (t1n t2n : String) (th : Rat) (t1 t2 : Table)
    (h1 : env t1n = some t1) (h2 : env t2n = some t2)
    (i0 : String) (irest : List String) (hids : tcIds t1 t2 = i0 :: irest)
    (d0 : String) (drest : List String) (hdts : tcDates t1 t2 = d0 :: drest) :
    (checkTimeCrossPair env acc t1n t2n th).rows
      = acc.rows
        ++ (if 0 < (tcMissing t1 t2).length ∧ th < tcPct t1 t2
            then tcMissingRows t1 t2 t1n t2n th else [])
        ++ tcInfreqRows t1 t2 d0 t1n th := by
  rw [checkTimeCrossPair, h1, h2]
  simp only [hids, hdts]
  by_cases hm : 0 < (tcMissing t1 t2).length
  · by_cases hp : th < tcPct t1 t2
    · by_cases hi : 0 < (tcInfreq t1 t2 d0 th).length
      · simp [hm, hp, hi, Table.append, List.append_assoc]
      · have hnil : tcInfreq t1 t2 d0 th = [] :=
          List.length_eq_zero.mp (by omega)
        simp [hm, hp, hi, Table.append, tcInfreqRows, hnil]
    · by_cases hi : 0 < (tcInfreq t1 t2 d0 th).length
      · simp [hm, hp, hi, Table.append]
      · have hnil : tcInfreq t1 t2 d0 th = [] :=
          List.length_eq_zero.mp (by omega)
        simp [hm, hp, hi, tcInfreqRows, hnil]
  · have hmnil : tcMissing t1 t2 = [] := List.length_eq_zero.mp (by omega)
    by_cases hi : 0 < (tcInfreq t1 t2 d0 th).length
    · simp [hm, hi, Table.append]
    · have hnil : tcInfreq t1 t2 d0 th = [] :=
        List.length_eq_zero.mp (by omega)
      simp [hm, hi, tcInfreqRows, hnil]

/-- C1: for a pair with common entity-ID and date columns, the
missing-combination findings are appended exactly when
`missing_count / total_count_in_table1 * 100` (0 when table1's reduction
is empty) strictly exceeds `th`; at equality with `th` the step appends
nothing. -/
theorem checkTimeCross_percentage_gate
    (env : Env) (acc : Table) (t1n t2n : String) (th : Rat) (t1 t2 : Table)
    (h1 : env t1n = some t1) (h2 : env t2n = some t2)
    (i0 : String) (irest : List String) (hids : tcIds t1 t2 = i0 :: irest)
    (d0 : String) (drest : List String) (hdts : tcDates t1 t2 = d0 :: drest) :
    ((checkTimeCrossPair env acc t1n t2n th).rows
      = acc.rows
        ++ (if th < (if (tcUK1 t1 t2).length = 0 then (0 : Rat)
              else ((tcMissing t1 t2).length : Rat) / ((tcUK1 t1 t2).length : Rat) * 100)
            then tcMissingRows t1 t2 t1n t2n th else [])
        ++ tcInfreqRows t1 t2 d0 t1n th) ∧
    ((if (tcUK1 t1 t2).length = 0 then (0 : Rat)
        else ((tcMissing t1 t2).length : Rat) / ((tcUK1 t1 t2).length : Rat) * 100) = th →
      (checkTimeCrossPair env acc t1n t2n th).rows
        = acc.rows ++ tcInfreqRows t1 t2 d0 t1n th) := by
  have hbase := tcPair_rows env acc t1n t2n th t1 t2 h1 h2 i0 irest hids d0 drest hdts
  have hswap :
      (if 0 < (tcMissing t1 t2).length ∧ th < tcPct t1 t2
        then tcMissingRows t1 t2 t1n t2n th else [])
      = (if th < (if (tcUK1 t1 t2).length = 0 then (0 : Rat)
            else ((tcMissing t1 t2).length : Rat) / ((tcUK1 t1 t2).length : Rat) * 100)
          then tcMissingRows t1 t2 t1n t2n th else []) := by
    by_cases hm : 0 < (tcMissing t1 t2).length
    · have huk := tcUK1_ne_nil t1 t2 hm
      have hpct : (if (tcUK1 t1 t2).length = 0 then (0 : Rat)
          else ((tcMissing t1 t2).length : Rat) / ((tcUK1 t1 t2).length : Rat) * 100)
          = tcPct t1 t2 := by
        rw [if_neg huk, tcPct, if_pos (by omega)]
      rw [hpct]
      by_cases hp : th < tcPct t1 t2
      · rw [if_pos ⟨hm, hp⟩, if_pos hp]
      · rw [if_neg (fun hc => hp hc.2), if_neg hp]
    · have hmnil : tcMissing t1 t2 = [] := List.length_eq_zero.mp (by omega)
      have hrows : tcMissingRows t1 t2 t1n t2n th = [] := by
        rw [tcMissingRows, hmnil]
        rfl
      rw [if_neg (fun hc => hm hc.1), hrows, ite_self]
  constructor
  · rw [hbase, hswap]
  · intro hth
    rw [hbase, hswap, hth, if_neg (lt_irrefl th)]
    simp

/-- C1 witness: the concrete T1/T2 pair (one of two combinations missing,
so the claim percentage is 50) with threshold 40. -/
theorem checkTimeCross_percentage_gate_witness :
    tcIds wT1 wT2 = ["PRODUCT_ID"] ∧
    ((checkTimeCrossPair wEnv wEmptyT "T1" "T2" 40).rows
      = wEmptyT.rows
        ++ (if (40 : Rat) < (if (tcUK1 wT1 wT2).length = 0 then (0 : Rat)
              else ((tcMissing wT1 wT2).length : Rat) / ((tcUK1 wT1 wT2).length : Rat) * 100)
            then tcMissingRows wT1 wT2 "T1" "T2" 40 else [])
        ++ tcInfreqRows wT1 wT2 "SALE_DT" "T1" 40) :=
  ⟨by decide,
    (checkTimeCross_percentage_gate wEnv wEmptyT "T1" "T2" 40 wT1 wT2 rfl rfl
      "PRODUCT_ID" [] (by decide) "SALE_DT" [] (by decide)).1⟩

theorem tcInfreqRow_inj (t1 t2 : Table) (t1n : String) (th : Rat) (g g2 : List Value)
    (hg : g.length = (tcIds t1 t2).length) (hg2 : g2.length = (tcIds t1 t2).length)
    (heq : tcInfreqRow (tcIds t1 t2) t1n th g = tcInfreqRow (tcIds t1 t2) t1n th g2) :
    g = g2 := by
  apply zipMeta_inj (tcIds t1 t2) _ ?_ ?_ g g2 hg hg2 heq
  · intro q hq c hc
    have hid := tcIds_tcIdCol t1 t2 c hc
    simp only [List.mem_cons, List.not_mem_nil, or_false] at hq
    intro hcq
    rw [hcq] at hid
    rcases hq with h | h | h | h
    · rw [h] at hid
      have hid2 : tcIdCol "INPUT_TABLE" = true := hid
      exact absurd hid2 (by decide)
    · rw [h] at hid
      have hid2 : tcIdCol "INPUT_VALUE" = true := hid
      exact absurd hid2 (by decide)
    · rw [h] at hid
      have hid2 : tcIdCol "WARNING_TYPE" = true := hid
      exact absurd hid2 (by decide)
    · rw [h] at hid
      have hid2 : tcIdCol "WARNING" = true := hid
      exact absurd hid2 (by decide)
  · have d1 : ("INPUT_TABLE" : String) ≠ "INPUT_VALUE" := by decide
    have d2 : ("INPUT_TABLE" : String) ≠ "WARNING_TYPE" := by decide
    have d3 : ("INPUT_TABLE" : String) ≠ "WARNING" := by decide
    have d4 : ("INPUT_VALUE" : String) ≠ "WARNING_TYPE" := by decide
    have d5 : ("INPUT_VALUE" : String) ≠ "WARNING" := by decide
    have d6 : ("WARNING_TYPE" : String) ≠ "WARNING" := by decide
    refine List.Pairwise.cons ?_ (List.Pairwise.cons ?_
      (List.Pairwise.cons ?_ (List.Pairwise.cons ?_ List.Pairwise.nil)))
    · intro b hb
      simp only [List.mem_cons, List.not_mem_nil, or_false] at hb
      rcases hb with h | h | h
      · rw [h]; exact d1
      · rw [h]; exact d2
      · rw [h]; exact d3
    · intro b hb
      simp only [List.mem_cons, List.not_mem_nil, or_false] at hb
      rcases hb with h | h
      · rw [h]; exact d4
      · rw [h]; exact d5
    · intro b hb
      simp only [List.mem_cons, List.not_mem_nil, or_false] at hb
      rw [hb]
      exact d6
    · intro b hb
      exact absurd hb (by simp)

/-- C2: for a pair with common entity-ID and date columns, the
low-frequency findings — one per group of table1's ID-column grouping
whose count of distinct first-date-column values is at most `th`, the
same threshold as the percentage gate — always form a suffix of the
unit's output, regardless of the step-5 outcome; a group is flagged iff
`period_count ≤ th`; and each such finding carries `INPUT_TABLE` equal to
table1's name only and the `time_cross_consistency` tag. -/
theorem checkTimeCross_low_frequency
    (env : Env) (acc : Table) (t1n t2n : String) (th : Rat) (t1 t2 : Table)
    (h1 : env t1n = some t1) (h2 : env t2n = some t2)
    (i0 : String) (irest : List String) (hids : tcIds t1 t2 = i0 :: irest)
    (d0 : String) (drest : List String) (hdts : tcDates t1 t2 = d0 :: drest) :
    (tcInfreqRows t1 t2 d0 t1n th <:+ (checkTimeCrossPair env acc t1n t2n th).rows) ∧
    (∀ g ∈ tcGroups t1 t2,
      (((periodCount t1.rows (tcIds t1 t2) d0 g : Nat) : Rat) ≤ th ↔
        tcInfreqRow (tcIds t1 t2) t1n th g ∈ tcInfreqRows t1 t2 d0 t1n th)) ∧
    (∀ g : List Value,
      Row.getVal (tcInfreqRow (tcIds t1 t2) t1n th g) "INPUT_TABLE" = Value.str t1n ∧
      Row.getVal (tcInfreqRow (tcIds t1 t2) t1n th g) "WARNING_TYPE"
        = Value.str "time_cross_consistency") := by
  refine ⟨?_, ?_, ?_⟩
  · rw [tcPair_rows env acc t1n t2n th t1 t2 h1 h2 i0 irest hids d0 drest hdts]
    exact ⟨_, rfl⟩
  · intro g hg
    constructor
    · intro hle
      apply List.mem_map.mpr
      refine ⟨g, ?_, rfl⟩
      rw [tcInfreq]
      apply List.mem_filter.mpr
      exact ⟨hg, by simpa using hle⟩
    · intro hmem
      rcases List.mem_map.mp hmem with ⟨g2, hg2, hgeq⟩
      have hg2g : g2 ∈ tcGroups t1 t2 := (List.mem_filter.mp hg2).1
      have : g2 = g := tcInfreqRow_inj t1 t2 t1n th g2 g
        (mem_tcGroups_length t1 t2 g2 hg2g) (mem_tcGroups_length t1 t2 g hg) hgeq
      rw [this] at hg2
      have := (List.mem_filter.mp hg2).2
      simpa using this
  · intro g
    constructor
    · show Row.getVal (Row.addMeta _ _) "INPUT_TABLE" = Value.str t1n
      simp only [Row.addMeta, List.foldl]
      rw [getVal_setVal, if_neg (by decide), getVal_setVal, if_neg (by decide),
        getVal_setVal, if_neg (by decide), getVal_setVal, if_pos rfl]
    · show Row.getVal (Row.addMeta _ _) "WARNING_TYPE" = Value.str "time_cross_consistency"
      simp only [Row.addMeta, List.foldl]
      rw [getVal_setVal, if_neg (by decide), getVal_setVal, if_pos rfl]

/-- C2 witness: the concrete T1/T2 pair; with threshold 40 every product
appears in at most 40 periods, and the low-frequency findings close the
unit's output. -/
theorem checkTimeCross_low_frequency_witness :
    tcDates wT1 wT2 = ["SALE_DT"] ∧
    (tcInfreqRows wT1 wT2 "SALE_DT" "T1" 40
      <:+ (checkTimeCrossPair wEnv wEmptyT "T1" "T2" 40).rows) :=
  ⟨by decide,
    (checkTimeCross_low_frequency wEnv wEmptyT "T1" "T2" 40 wT1 wT2 rfl rfl
      "PRODUCT_ID" [] (by decide) "SALE_DT" [] (by decide)).1⟩

-- ---------------------------------------------------------------------
-- C6: idempotence of the hierarchy formatter
-- ---------------------------------------------------------------------

theorem natRepr_reverse_cons (k : Nat) :
    ∃ rest, (natRepr k).data.reverse = Nat.digitChar (k % 10) :: rest := by
  show ∃ rest, (natDigitsAux (k + 1) k).reverse.reverse = Nat.digitChar (k % 10) :: rest
  rw [List.reverse_reverse, natDigitsAux]
  by_cases h : k < 10
  · exact ⟨[], by simp [h]⟩
  · exact ⟨natDigitsAux k (k / 10), by simp [h]⟩

/-- A `{dim}_LVL` column name is never a `{dim2}_ID` column name (the
last characters differ). -/
theorem lvlCol_ne_idCol (d x : String) : lvlColOf d ≠ idColOf x := by
  intro h
  have h2 := congrArg (fun s : String => s.data.reverse.head?) h
  simp only [lvlColOf, idColOf, String.data_append, List.reverse_append] at h2
  have e1 : ("_LVL".data).reverse = ['L', 'V', 'L', '_'] := by decide
  have e2 : ("_ID".data).reverse = ['D', 'I', '_'] := by decide
  rw [e1, e2] at h2
  simp only [List.cons_append, List.head?_cons] at h2
  have h3 : ('L' : Char) = 'D' := Option.some.inj h2
  exact absurd h3 (by decide)

/-- A `{dim}_LVL_ID{k}` column name is never a `{dim2}_ID` column name
(it ends in a decimal digit, not in `D`). -/
theorem lvlIdCol_ne_idCol (d x : String) (k : Nat) : lvlIdColOf d k ≠ idColOf x := by
  intro h
  obtain ⟨rest, hrest⟩ := natRepr_reverse_cons k
  have h2 := congrArg (fun s : String => s.data.reverse.head?) h
  simp only [lvlIdColOf, idColOf, String.data_append, List.reverse_append] at h2
  rw [hrest, List.cons_append, List.head?_cons] at h2
  have e2 : ("_ID".data).reverse = ['D', 'I', '_'] := by decide
  rw [e2, List.cons_append, List.head?_cons] at h2
  have h3 : Nat.digitChar (k % 10) = 'D' := Option.some.inj h2
  have h4 : ∀ m, m < 10 → Nat.digitChar m ≠ 'D' := by decide
  exact h4 (k % 10) (Nat.mod_lt k (by norm_num)) h3

theorem optMapList_length (f : Value → Option Value) :
    ∀ (l : List Value) (res : List Value), optMapList f l = some res → res.length = l.length := by
  intro l
  induction l with
  | nil =>
    intro res h
    rw [optMapList] at h
    cases h
    rfl
  | cons v vs ih =>
    intro res h
    rw [optMapList] at h
    cases hf : f v with
    | none => rw [hf] at h; exact absurd h (by simp)
    | some w =>
      cases ho : optMapList f vs with
      | none => rw [hf, ho] at h; exact absurd h (by simp)
      | some ws =>
        rw [hf, ho] at h
        have : res = w :: ws := by
          have h2 := h
          simp at h2
          exact h2.symm
        rw [this]
        simp [ih ws ho]

theorem castColumn_length (rows : List Row) (c : String) (vs : List Value)
    (h : castColumn rows c = some vs) : vs.length = rows.length := by
  rw [castColumn] at h
  have := optMapList_length castInt64 (rows.map (fun r => r.getVal c)) vs h
  simpa using this

theorem mem_setCol_cols (t : Table) (c : String) (vals : List Value) (c2 : String)
    (h : c2 ∈ (t.setCol c vals).cols) : c2 ∈ t.cols ∨ c2 = c := by
  rw [Table.setCol] at h
  by_cases hc : c ∈ t.cols
  · rw [if_pos hc] at h
    exact Or.inl h
  · rw [if_neg hc] at h
    rcases List.mem_append.mp h with h2 | h2
    · exact Or.inl h2
    · exact Or.inr (by simpa using h2)

theorem setCol_rows_length (t : Table) (c : String) (vals : List Value)
    (h : vals.length = t.rows.length) : (t.setCol c vals).rows.length = t.rows.length := by
  simp [Table.setCol, List.length_zip, h]

theorem map_getVal_setCol_ne :
    ∀ (rows : List Row) (vals : List Value), vals.length = rows.length →
    ∀ (c c2 : String), c2 ≠ c →
    ((rows.zip vals).map (fun p => p.1.setVal c p.2)).map (fun r => Row.getVal r c2)
      = rows.map (fun r => Row.getVal r c2) := by
  intro rows
  induction rows with
  | nil => intro vals _ c c2 _; simp
  | cons r rs ih =>
    intro vals hlen c c2 hne
    cases vals with
    | nil => simp at hlen
    | cons v vs =>
      simp only [List.zip_cons_cons, List.map_cons]
      rw [getVal_setVal, if_neg hne, ih vs (by simpa using hlen) c c2 hne]

theorem rows_map_getVal_setCol (t : Table) (c : String) (vals : List Value)
    (hlen : vals.length = t.rows.length) (c2 : String) (hne : c2 ≠ c) :
    (t.setCol c vals).rows.map (fun r => Row.getVal r c2)
      = t.rows.map (fun r => Row.getVal r c2) := by
  rw [Table.setCol]
  exact map_getVal_setCol_ne t.rows vals hlen c c2 hne

theorem rows_map_getVal_dropCol (t : Table) (c c2 : String) (hne : c2 ≠ c) :
    (t.dropCol c).rows.map (fun r => Row.getVal r c2)
      = t.rows.map (fun r => Row.getVal r c2) := by
  rw [Table.dropCol]
  induction t.rows with
  | nil => simp
  | cons r rs ih =>
    simp only [List.map_cons]
    rw [getVal_filterNe, if_neg hne]
    exact congrArg (List.cons (Row.getVal r c2)) ih

theorem processDim_cols_id (env : Env) (t : Table) (e g : String) (x : String)
    (h : idColOf x ∈ (processDim env t e g).cols) : idColOf x ∈ t.cols := by
  rw [processDim] at h
  by_cases h1 : idColOf e ∈ t.cols
  · rw [if_pos h1] at h
    cases he : env g with
    | none => rw [he] at h; exact h
    | some hier =>
      rw [he] at h
      cases hc : castColumn t.rows (idColOf e) with
      | none => rw [hc] at h; exact h
      | some vs =>
        rw [hc] at h
        simp only [Table.dropCol, List.mem_filter, decide_eq_true_eq] at h
        rcases mem_setCol_cols _ _ _ _ h.1 with h2 | h2
        · rcases mem_setCol_cols _ _ _ _ h2 with h3 | h3
          · exact h3
          · exact absurd h3.symm (lvlIdCol_ne_idCol e x _)
        · exact absurd h2.symm (lvlCol_ne_idCol e x)
  · rw [if_neg h1] at h
    exact h

theorem processDim_id_of_mem (env : Env) (t : Table) (e g : String)
    (h : idColOf e ∈ (processDim env t e g).cols) : processDim env t e g = t := by
  rw [processDim] at h ⊢
  by_cases h1 : idColOf e ∈ t.cols
  · rw [if_pos h1] at h ⊢
    cases he : env g with
    | none => rfl
    | some hier =>
      rw [he] at h
      cases hc : castColumn t.rows (idColOf e) with
      | none => rfl
      | some vs =>
        exfalso
        rw [hc] at h
        simp only [Table.dropCol, List.mem_filter, decide_eq_true_eq] at h
        exact h.2 rfl
  · rw [if_neg h1]

theorem processDim_vals (env : Env) (t : Table) (e g : String) (x : String)
    (hxe : idColOf x ≠ idColOf e) :
    (processDim env t e g).rows.map (fun r => Row.getVal r (idColOf x))
      = t.rows.map (fun r => Row.getVal r (idColOf x)) := by
  rw [processDim]
  by_cases h1 : idColOf e ∈ t.cols
  · rw [if_pos h1]
    cases he : env g with
    | none => rfl
    | some hier =>
      cases hc : castColumn t.rows (idColOf e) with
      | none => rfl
      | some vs =>
        have hlen1 : vs.length = t.rows.length := castColumn_length t.rows (idColOf e) vs hc
        have hlen2 : (List.replicate t.rows.length
            (Value.num (targetLevel hier e : Rat))).length
            = ((t.setCol (lvlIdColOf e (targetLevel hier e)) vs).rows).length := by
          rw [setCol_rows_length t _ vs hlen1, List.length_replicate]
        rw [rows_map_getVal_dropCol _ _ _ hxe,
          rows_map_getVal_setCol _ _ _ hlen2 _ (fun hcq => lvlCol_ne_idCol e x hcq.symm),
          rows_map_getVal_setCol _ _ _ hlen1 _ (fun hcq => lvlIdCol_ne_idCol e x _ hcq.symm)]
  · rw [if_neg h1]

theorem foldDims_cols_id (env : Env) :
    ∀ (lvl : List (String × String)) (t : Table) (x : String),
      idColOf x ∈ (lvl.foldl (fun acc p => processDim env acc p.1 p.2) t).cols →
      idColOf x ∈ t.cols := by
  intro lvl
  induction lvl with
  | nil => intro t x h; exact h
  | cons p lvl2 ih =>
    intro t x h
    rw [List.foldl_cons] at h
    exact processDim_cols_id env t p.1 p.2 x (ih _ x h)

theorem foldDims_vals (env : Env) :
    ∀ (lvl : List (String × String)) (t : Table) (x : String),
      idColOf x ∈ (lvl.foldl (fun acc p => processDim env acc p.1 p.2) t).cols →
      (lvl.foldl (fun acc p => processDim env acc p.1 p.2) t).rows.map
          (fun r => Row.getVal r (idColOf x))
        = t.rows.map (fun r => Row.getVal r (idColOf x)) := by
  intro lvl
  induction lvl with
  | nil => intro t x _; rfl
  | cons p lvl2 ih =>
    intro t x h
    rw [List.foldl_cons] at h ⊢
    have hstep : idColOf x ∈ (processDim env t p.1 p.2).cols :=
      foldDims_cols_id env lvl2 _ x h
    rw [ih _ x h]
    by_cases hxe : idColOf x = idColOf p.1
    · have hid : processDim env t p.1 p.2 = t :=
        processDim_id_of_mem env t p.1 p.2 (hxe ▸ hstep)
      rw [hid]
    · exact processDim_vals env t p.1 p.2 x hxe

theorem foldl_fix {α β : Type} (f : α → β → α) (u : α) (l : List β)
    (h : ∀ p ∈ l, f u p = u) : l.foldl f u = u := by
  induction l with
  | nil => rfl
  | cons p l2 ih =>
    rw [List.foldl_cons, h p (by simp)]
    exact ih (fun q hq => h q (by simp [hq]))

theorem foldDims_fixes (env : Env) :
    ∀ (lvl : List (String × String)) (t : Table) (p : String × String), p ∈ lvl →
      processDim env (lvl.foldl (fun acc q => processDim env acc q.1 q.2) t) p.1 p.2
        = lvl.foldl (fun acc q => processDim env acc q.1 q.2) t := by
  intro lvl
  induction lvl with
  | nil => intro t p hp; exact absurd hp (by simp)
  | cons e lvl2 ih =>
    intro t p hp
    simp only [List.foldl_cons]
    rcases List.mem_cons.mp hp with hpe | hp2
    · subst hpe
      by_cases hmem : idColOf p.1 ∈
          (lvl2.foldl (fun acc q => processDim env acc q.1 q.2)
            (processDim env t p.1 p.2)).cols
      · by_cases h1 : idColOf p.1 ∈ t.cols
        · cases he : env p.2 with
          | none => rw [processDim, if_pos hmem, he]
          | some hier =>
            cases hc : castColumn t.rows (idColOf p.1) with
            | none =>
              have hstepid : processDim env t p.1 p.2 = t := by
                rw [processDim, if_pos h1, he, hc]
              rw [hstepid] at hmem ⊢
              have hvals := foldDims_vals env lvl2 t p.1 hmem
              have hc2 : castColumn
                  (lvl2.foldl (fun acc q => processDim env acc q.1 q.2) t).rows
                  (idColOf p.1) = none := by
                rw [castColumn, hvals, ← castColumn, hc]
              rw [processDim, if_pos hmem, he, hc2]
            | some vs =>
              exfalso
              have hdrop : idColOf p.1 ∉ (processDim env t p.1 p.2).cols := by
                rw [processDim, if_pos h1, he, hc]
                simp [Table.dropCol, List.mem_filter]
              exact hdrop (foldDims_cols_id env lvl2 _ p.1 hmem)
        · exfalso
          have hstepid : processDim env t p.1 p.2 = t := by rw [processDim, if_neg h1]
          have h2 := foldDims_cols_id env lvl2 _ p.1 hmem
          rw [hstepid] at h2
          exact h1 h2
      · rw [processDim, if_neg hmem]
    · exact ih (processDim env t e.1 e.2) p hp2

/-- C6: `format_output` is idempotent: a second run on the findings table
produced by a first run leaves it unchanged — every dimension the first
run processed had its `{DIM}_ID` column dropped (and no later step
re-creates a column ending in `_ID`), a dimension the first run skipped
or failed on fails or skips identically the second time, and an empty
findings table short-circuits both runs. -/
theorem formatOutput_idempotent (env : Env) (lvl : List (String × String)) (t : Table) :
    formatOutput env lvl (formatOutput env lvl t) = formatOutput env lvl t := by
  have key : ∀ s : Table, s = formatOutput env lvl t → formatOutput env lvl s = s := by
    intro s hs
    by_cases hemp : s.isEmptyDF = true
    · rw [formatOutput, if_pos hemp]
    · rw [formatOutput, if_neg hemp]
      by_cases hin : t.isEmptyDF = true
      · rw [formatOutput, if_pos hin] at hs
        rw [hs] at hemp
        exact absurd hin hemp
      · rw [formatOutput, if_neg hin] at hs
        rw [hs]
        exact foldl_fix _ _ lvl (fun p hp => foldDims_fixes env lvl t p hp)
  exact key _ rfl

-- ---------------------------------------------------------------------
-- C8 / C10: error granularity and accumulator threading
-- ---------------------------------------------------------------------

theorem processDim_rows_length (env : Env) (t : Table) (d hname : String) :
    (processDim env t d hname).rows.length = t.rows.length := by
  rw [processDim]
  by_cases h1 : idColOf d ∈ t.cols
  · rw [if_pos h1]
    cases he : env hname with
    | none => rfl
    | some hier =>
      cases hc : castColumn t.rows (idColOf d) with
      | none => rfl
      | some vs =>
        have hlen1 : vs.length = t.rows.length := castColumn_length _ _ _ hc
        simp [Table.dropCol, Table.setCol, List.length_zip, hlen1]
  · rw [if_neg h1]

theorem vrPair_acc (env : Env) (acc : Table) (tname col : String) (th : Rat) :
    acc.rows <+: (checkValRangePair env acc tname col th).rows ∧
    ((checkValRangePair env acc tname col th).rows.length = acc.rows.length →
      checkValRangePair env acc tname col th = acc) := by
  cases he : env tname with
  | none =>
    have hid : checkValRangePair env acc tname col th = acc := by
      rw [checkValRangePair, he]
    exact ⟨⟨[], by rw [hid]; simp⟩, fun _ => hid⟩
  | some table =>
    by_cases h1 : col ∈ table.cols
    · by_cases h2 : (table.rows.any fun r => (Row.getVal r col).isStr) = true
      · have hid : checkValRangePair env acc tname col th = acc := by
          rw [checkValRangePair, he]
          simp only [if_pos h1, if_pos h2]
        exact ⟨⟨[], by rw [hid]; simp⟩, fun _ => hid⟩
      · cases hb : vrBad table col th with
        | nil =>
          have hid : checkValRangePair env acc tname col th = acc := by
            rw [checkValRangePair, he]
            simp only [if_pos h1, if_neg h2, hb]
          exact ⟨⟨[], by rw [hid]; simp⟩, fun _ => hid⟩
        | cons r0 rest =>
          have happ : checkValRangePair env acc tname col th
              = acc.append (table.cols ++ vrMetaNames) (vrRows table tname col th) := by
            rw [checkValRangePair, he]
            simp only [if_pos h1, if_neg h2, hb]
          constructor
          · rw [happ]
            exact ⟨vrRows table tname col th, rfl⟩
          · intro hl
            exfalso
            have hvr : (vrRows table tname col th).length = rest.length + 1 := by
              rw [vrRows, hb]
              simp [hb]
            rw [happ] at hl
            simp only [Table.append, List.length_append, hvr] at hl
            omega
    · have hid : checkValRangePair env acc tname col th = acc := by
        rw [checkValRangePair, he]
        simp only [if_neg h1]
      exact ⟨⟨[], by rw [hid]; simp⟩, fun _ => hid⟩

theorem crossPair_acc (env : Env) (acc : Table) (an bn : String) :
    acc.rows <+: (checkCrossPair env acc an bn).rows ∧
    ((checkCrossPair env acc an bn).rows.length = acc.rows.length →
      checkCrossPair env acc an bn = acc) := by
  cases he1 : env an with
  | none =>
    have hid : checkCrossPair env acc an bn = acc := by rw [checkCrossPair, he1]
    exact ⟨⟨[], by rw [hid]; simp⟩, fun _ => hid⟩
  | some t1 =>
    cases he2 : env bn with
    | none =>
      have hid : checkCrossPair env acc an bn = acc := by rw [checkCrossPair, he1, he2]
      exact ⟨⟨[], by rw [hid]; simp⟩, fun _ => hid⟩
    | some t2 =>
      cases hcs : crossIds t1 t2 with
      | nil =>
        have hid : checkCrossPair env acc an bn = acc := by
          rw [checkCrossPair, he1, he2]
          simp only [hcs]
        exact ⟨⟨[], by rw [hid]; simp⟩, fun _ => hid⟩
      | cons c0 cs =>
        cases ho : crossOrphans t1 t2 with
        | nil =>
          have hid : checkCrossPair env acc an bn = acc := by
            rw [checkCrossPair, he1, he2]
            simp only [hcs, ho]
          exact ⟨⟨[], by rw [hid]; simp⟩, fun _ => hid⟩
        | cons k ks =>
          have happ := crossPair_rows env acc an bn t1 t2 he1 he2 (by rw [hcs]; simp)
          constructor
          · rw [happ]
            exact ⟨_, rfl⟩
          · intro hl
            exfalso
            rw [happ] at hl
            simp only [List.length_append, List.length_map, ho] at hl
            simp at hl
  
theorem tcPair_acc (env : Env) (acc : Table) (t1n t2n : String) (th : Rat) :
    acc.rows <+: (checkTimeCrossPair env acc t1n t2n th).rows ∧
    ((checkTimeCrossPair env acc t1n t2n th).rows.length = acc.rows.length →
      checkTimeCrossPair env acc t1n t2n th = acc) := by
  cases he1 : env t1n with
  | none =>
    have hid : checkTimeCrossPair env acc t1n t2n th = acc := by
      rw [checkTimeCrossPair, he1]
    exact ⟨⟨[], by rw [hid]; simp⟩, fun _ => hid⟩
  | some t1 =>
    cases he2 : env t2n with
    | none =>
      have hid : checkTimeCrossPair env acc t1n t2n th = acc := by
        rw [checkTimeCrossPair, he1, he2]
      exact ⟨⟨[], by rw [hid]; simp⟩, fun _ => hid⟩
    | some t2 =>
      cases hids : tcIds t1 t2 with
      | nil =>
        have hid : checkTimeCrossPair env acc t1n t2n th = acc := by
          rw [checkTimeCrossPair, he1, he2]
          simp only [hids]
        exact ⟨⟨[], by rw [hid]; simp⟩, fun _ => hid⟩
      | cons i0 irest =>
        cases hdts : tcDates t1 t2 with
        | nil =>
          have hid : checkTimeCrossPair env acc t1n t2n th = acc := by
            rw [checkTimeCrossPair, he1, he2]
            simp only [hids, hdts]
          exact ⟨⟨[], by rw [hid]; simp⟩, fun _ => hid⟩
        | cons d0 drest =>
          have heq := tcPair_rows env acc t1n t2n th t1 t2 he1 he2 i0 irest hids d0 drest hdts
          constructor
          · refine ⟨(if 0 < (tcMissing t1 t2).length ∧ th < tcPct t1 t2
                then tcMissingRows t1 t2 t1n t2n th else [])
                ++ tcInfreqRows t1 t2 d0 t1n th, ?_⟩
            rw [heq, List.append_assoc]
          · intro hl
            rw [heq] at hl
            simp only [List.length_append] at hl
            have hA0 : (if 0 < (tcMissing t1 t2).length ∧ th < tcPct t1 t2
                then tcMissingRows t1 t2 t1n t2n th else []).length = 0 := by omega
            have hB0 : (tcInfreqRows t1 t2 d0 t1n th).length = 0 := by omega
            have hi : ¬ 0 < (tcInfreq t1 t2 d0 th).length := by
              rw [tcInfreqRows, List.length_map] at hB0
              omega
            by_cases hm : 0 < (tcMissing t1 t2).length
            · by_cases hp : th < tcPct t1 t2
              · exfalso
                rw [if_pos ⟨hm, hp⟩, tcMissingRows, List.length_map] at hA0
                omega
              · rw [checkTimeCrossPair, he1, he2]
                simp only [hids, hdts]
                simp [hm, hp, hi]
            · rw [checkTimeCrossPair, he1, he2]
              simp only [hids, hdts]
              simp [hm, hi]

theorem foldl_acc_grows {β : Type} (f : Table → β → Table)
    (hunit : ∀ (a : Table) (b : β), a.rows <+: (f a b).rows ∧
      ((f a b).rows.length = a.rows.length → f a b = a)) :
    ∀ (l : List β) (a : Table),
      a.rows <+: (l.foldl f a).rows ∧
      ((l.foldl f a).rows.length = a.rows.length → l.foldl f a = a) := by
  intro l
  induction l with
  | nil => intro a; exact ⟨⟨[], by simp⟩, fun _ => rfl⟩
  | cons b l2 ih =>
    intro a
    rw [List.foldl_cons]
    rcases hunit a b with ⟨⟨s1, hs1⟩, hlen1⟩
    rcases ih (f a b) with ⟨⟨s2, hs2⟩, hlen2⟩
    constructor
    · exact ⟨s1 ++ s2, by rw [← hs2, ← hs1, List.append_assoc]⟩
    · intro hl
      have e1 : (l2.foldl f (f a b)).rows.length = (f a b).rows.length + s2.length := by
        rw [← hs2, List.length_append]
      have e2 : (f a b).rows.length = a.rows.length + s1.length := by
        rw [← hs1, List.length_append]
      have hfa : f a b = a := hlen1 (by omega)
      rw [hfa] at hl hlen2 ⊢
      exact hlen2 hl

/-- C8: errors are caught per unit of work and are non-fatal — a load
failure leaves the accumulator exactly as it was for that unit (one
(table, column) pair, one table pair, one dimension; for a dimension also
a cast failure); the fold equations show processing continues with the
remaining units after any unit's outcome; every unit only ever appends to
the accumulated findings (the rows so far are a prefix of the unit's
output), and the formatter never changes the number of findings rows. -/
theorem per_unit_error_granularity :
    (∀ (env : Env) (acc : Table) (tname col : String) (th : Rat),
      env tname = none → checkValRangePair env acc tname col th = acc) ∧
    (∀ (env : Env) (acc : Table) (an bn : String),
      env an = none ∨ env bn = none → checkCrossPair env acc an bn = acc) ∧
    (∀ (env : Env) (acc : Table) (an bn : String) (th : Rat),
      env an = none ∨ env bn = none → checkTimeCrossPair env acc an bn th = acc) ∧
    (∀ (env : Env) (t : Table) (d hname : String),
      env hname = none → processDim env t d hname = t) ∧
    (∀ (env : Env) (t : Table) (d hname : String) (hier : Table),
      env hname = some hier → castColumn t.rows (idColOf d) = none →
      processDim env t d hname = t) ∧
    (∀ (env : Env) (acc : Table) (p : String × String) (ps : List (String × String)) (th : Rat),
      checkValRange env acc (p :: ps) th
        = checkValRange env (checkValRangePair env acc p.1 p.2 th) ps th) ∧
    (∀ (env : Env) (acc : Table) (pr : String × String) (ps : List (String × String)) (th : Rat),
      checkTimeCrossConsistency env acc (pr :: ps) th
        = checkTimeCrossConsistency env (checkTimeCrossPair env acc pr.1 pr.2 th) ps th) ∧
    (∀ (env : Env) (acc : Table) (tname col : String) (th : Rat),
      acc.rows <+: (checkValRangePair env acc tname col th).rows) ∧
    (∀ (env : Env) (acc : Table) (an bn : String),
      acc.rows <+: (checkCrossPair env acc an bn).rows) ∧
    (∀ (env : Env) (acc : Table) (an bn : String) (th : Rat),
      acc.rows <+: (checkTimeCrossPair env acc an bn th).rows) ∧
    (∀ (env : Env) (t : Table) (d hname : String),
      (processDim env t d hname).rows.length = t.rows.length) := by
  refine ⟨?_, ?_, ?_, ?_, ?_, ?_, ?_, ?_, ?_, ?_, ?_⟩
  · intro env acc tname col th h
    rw [checkValRangePair, h]
  · intro env acc an bn h
    rcases h with h | h
    · rw [checkCrossPair, h]
    · rw [checkCrossPair, h]
      cases env an <;> rfl
  · intro env acc an bn th h
    rcases h with h | h
    · rw [checkTimeCrossPair, h]
    · rw [checkTimeCrossPair, h]
      cases env an <;> rfl
  · intro env t d hname h
    rw [processDim]
    by_cases hmem : idColOf d ∈ t.cols
    · rw [if_pos hmem, h]
    · rw [if_neg hmem]
  · intro env t d hname hier h hc
    rw [processDim]
    by_cases hmem : idColOf d ∈ t.cols
    · rw [if_pos hmem, h, hc]
    · rw [if_neg hmem]
  · intro env acc p ps th
    rfl
  · intro env acc pr ps th
    rfl
  · intro env acc tname col th
    exact (vrPair_acc env acc tname col th).1
  · intro env acc an bn
    exact (crossPair_acc env acc an bn).1
  · intro env acc an bn th
    exact (tcPair_acc env acc an bn th).1
  · intro env t d hname
    exact processDim_rows_length env t d hname

/-- C8 witness: a pair whose table fails to load is skipped, leaving the
accumulator untouched. -/
theorem per_unit_error_granularity_witness :
    wEnv "MISSING" = none ∧
    checkValRangePair wEnv wOneRow "MISSING" "X" 0 = wOneRow :=
  ⟨rfl, per_unit_error_granularity.1 wEnv wOneRow "MISSING" "X" 0 rfl⟩

/-- C10: each checker returns the entire accumulated findings table: the
rows present before the call are always a prefix of the returned rows
(so findings from earlier checker invocations are included), and a call
that appends no row returns the accumulator table unchanged rather than
an empty table. -/
theorem checkers_return_accumulator :
    (∀ (env : Env) (acc : Table) (pairs : List (String × String)) (th : Rat),
      acc.rows <+: (checkValRange env acc pairs th).rows ∧
      ((checkValRange env acc pairs th).rows.length = acc.rows.length →
        checkValRange env acc pairs th = acc)) ∧
    (∀ (env : Env) (acc : Table) (tables : List String),
      acc.rows <+: (checkCrossConsistency env acc tables).rows ∧
      ((checkCrossConsistency env acc tables).rows.length = acc.rows.length →
        checkCrossConsistency env acc tables = acc)) ∧
    (∀ (env : Env) (acc : Table) (pairs : List (String × String)) (th : Rat),
      acc.rows <+: (checkTimeCrossConsistency env acc pairs th).rows ∧
      ((checkTimeCrossConsistency env acc pairs th).rows.length = acc.rows.length →
        checkTimeCrossConsistency env acc pairs th = acc)) := by
  refine ⟨?_, ?_, ?_⟩
  · intro env acc pairs th
    exact foldl_acc_grows _ (fun a b => vrPair_acc env a b.1 b.2 th) pairs acc
  · intro env acc tables
    exact foldl_acc_grows _ (fun a b => crossPair_acc env a b.1 b.2) (permPairs tables) acc
  · intro env acc pairs th
    exact foldl_acc_grows _ (fun a b => tcPair_acc env a b.1 b.2 th) pairs acc

/-- C10 witness: the run's prior findings are a prefix of a value-range
call's output, and a temporal call over no pairs returns the accumulator
itself. -/
theorem checkers_return_accumulator_witness :
    (wOneRow.rows <+: (checkValRange wEnv wOneRow [("PRICES", "PRICE")] 0).rows) ∧
    checkTimeCrossConsistency wEnv wOneRow [] 0 = wOneRow :=
  ⟨(checkers_return_accumulator.1 wEnv wOneRow [("PRICES", "PRICE")] 0).1,
    (checkers_return_accumulator.2.2 wEnv wOneRow [] 0).2 (by decide)⟩
